import Mathlib

/-!
Shallow embedding of the Monad-MCP wallet client (`src/index.ts`).

The program is a CLI wallet: the `MonadWalletManager` class holds the
transfer workflow (`sendMonad`), a file-backed ledger
(`logTransaction`, `updateTransactionStatus`, `getTransactionHistory`),
and `main` dispatches CLI verbs with regex validation of the transfer
arguments.

Modelling choices:
* The ledger file (`monad_transactions.json`) is modelled by `FileState`:
  `unreadable` (file absent or `readFile` rejects), `corrupt raw` (content
  that `JSON.parse` throws on, including the empty string), or `json v`
  (content that parses to the JSON value `v`).
* JSON values are modelled by `Json`; numbers are integers (the only
  numbers this program ever writes are integral timestamps).
* `getTransactionHistory` returns `JSON.parse(data)` unvalidated, so in
  the model it returns a `Json` value, not a typed record list.
* JavaScript dynamic behaviour that the store code relies on is made
  explicit: property access on `null` throws (`Except.error`), property
  access on primitives yields `undefined` (so `tx.id === txId` is false),
  `.push` / `.findIndex` on a non-array throws, and each `try/catch` in
  the store swallows those errors.
* Remote calls (viem) are modelled by a `NetworkOracle` of call results;
  `writeFile` outcomes are Boolean parameters (`true` = the write
  succeeded). viem's `waitForTransactionReceipt` yields
  `receipt.status : string` ("success" or "reverted"); the code tests
  its JavaScript truthiness, modelled by `jsTruthyString`.
-/

/-- A parsed JSON value, as produced by `JSON.parse`. -/
inductive Json where
  | null : Json
  | bool (b : Bool) : Json
  | num (n : Int) : Json
  | str (s : String) : Json
  | arr (xs : List Json) : Json
  | obj (fields : List (String × Json)) : Json

/-- The `status` field of a `MonadTransaction`: `'pending' | 'confirmed' | 'failed'`. -/
inductive TxStatus where
  | pending
  | confirmed
  | failed
deriving DecidableEq

/-- The string literal the program writes for each status value. -/
def TxStatus.toStr : TxStatus → String
  | .pending => "pending"
  | .confirmed => "confirmed"
  | .failed => "failed"

/-- The `MonadTransaction` interface of `src/index.ts`. -/
structure MonadTransaction where
  id : String
  timestamp : Nat
  sender : String
  recipient : String
  amount : String
  status : TxStatus
deriving DecidableEq

/-- `JSON.stringify` of one transaction record: an object whose keys appear
in the insertion order of the object literal in `sendMonad`. -/
def encodeTx (tx : MonadTransaction) : Json :=
  .obj [("id", .str tx.id), ("timestamp", .num tx.timestamp),
        ("sender", .str tx.sender), ("recipient", .str tx.recipient),
        ("amount", .str tx.amount), ("status", .str tx.status.toStr)]

/-- Property lookup on a parsed JSON object (keys are unique after
`JSON.parse`, so first match suffices). -/
def jsLookup : List (String × Json) → String → Option Json
  | [], _ => none
  | (k, v) :: rest, key => if k = key then some v else jsLookup rest key

/-- Decode a status string back to `TxStatus` (used to state round-trip
fidelity of the persisted representation). -/
def decodeStatusStr (s : String) : Option TxStatus :=
  if s = "pending" then some .pending
  else if s = "confirmed" then some .confirmed
  else if s = "failed" then some .failed
  else none

/-- Decode a JSON value as a transaction record (used to state round-trip
fidelity of the persisted representation). -/
def decodeTx (v : Json) : Option MonadTransaction :=
  match v with
  | .obj fields =>
    match jsLookup fields "id", jsLookup fields "timestamp",
          jsLookup fields "sender", jsLookup fields "recipient",
          jsLookup fields "amount", jsLookup fields "status" with
    | some (.str i), some (.num (Int.ofNat t)), some (.str sd),
      some (.str r), some (.str a), some (.str st) =>
      match decodeStatusStr st with
      | some stv => some ⟨i, t, sd, r, a, stv⟩
      | none => none
    | _, _, _, _, _, _ => none
  | _ => none

/-- The persisted state of `monad_transactions.json`. -/
inductive FileState where
  | unreadable : FileState
  | corrupt (raw : String) : FileState
  | json (v : Json) : FileState

/-- `MonadWalletManager.getTransactionHistory`: `readFile` then
`JSON.parse`; any read or parse failure is caught and `[]` is returned.
A successful parse is returned as-is (the TypeScript cast performs no
shape validation). -/
def getTransactionHistory : FileState → Json
  | .unreadable => .arr []
  | .corrupt _ => .arr []
  | .json v => v

/-- `MonadWalletManager.logTransaction tx`: read the history, `push` the
new record, write the whole array back. If the parsed history is not an
array, `.push` throws and the `catch` swallows it (no write); if
`writeFile` fails (`writeOk = false`) the error is also swallowed.
Returns the new file state and whether `writeFile` was invoked. -/
def logTransaction (fs : FileState) (tx : MonadTransaction) (writeOk : Bool) :
    FileState × Bool :=
  match getTransactionHistory fs with
  | .arr xs =>
    if writeOk then (.json (.arr (xs ++ [encodeTx tx])), true)
    else (fs, true)
  | _ => (fs, false)

/-- The callback `tx => tx.id === txId` under JavaScript semantics:
property access on `null` throws a TypeError; on primitives and arrays
`.id` is `undefined`, which is never strictly equal to a string; on an
object the `id` field must be the same string. -/
def jsIdEq : Json → String → Except Unit Bool
  | .null, _ => .error ()
  | .obj fields, txId =>
    .ok (match jsLookup fields "id" with
         | some (.str s) => s = txId
         | _ => false)
  | _, _ => .ok false

/-- `transactions.findIndex(tx => tx.id === txId)`, threading a possible
TypeError from the callback. `n` is the index of the head of the
remaining list. -/
def jsFindIndexAux : List Json → String → Nat → Except Unit (Option Nat)
  | [], _, _ => .ok none
  | x :: xs, txId, n =>
    match jsIdEq x txId with
    | .error e => .error e
    | .ok true => .ok (some n)
    | .ok false => jsFindIndexAux xs txId (n + 1)

/-- `fields.status = v`: overwrite the `status` key in place (JavaScript
preserves key order on overwrite), or add it at the end if absent. -/
def setKeyStatus : List (String × Json) → Json → List (String × Json)
  | [], v => [("status", v)]
  | (k, w) :: rest, v =>
    if k = "status" then ("status", v) :: rest
    else (k, w) :: setKeyStatus rest v

/-- `transactions[txIndex].status = status` on the matched element. A
matched element is necessarily an object (`jsIdEq` is only true on
objects), so the non-object branch is unreachable. -/
def setStatusOn (x : Json) (st : TxStatus) : Json :=
  match x with
  | .obj fields => .obj (setKeyStatus fields (.str st.toStr))
  | other => other

/-- `MonadWalletManager.updateTransactionStatus txId status`: read the
history, `findIndex` by id, and only when found mutate that record's
status and write the whole array back. A non-array history makes
`.findIndex` throw (swallowed, no write); a `null` element makes the
callback throw (swallowed, no write); a missing id is a silent no-op.
Returns the new file state and whether `writeFile` was invoked. -/
def updateTransactionStatus (fs : FileState) (txId : String) (st : TxStatus)
    (writeOk : Bool) : FileState × Bool :=
  match getTransactionHistory fs with
  | .arr xs =>
    match jsFindIndexAux xs txId 0 with
    | .error _ => (fs, false)
    | .ok none => (fs, false)
    | .ok (some i) =>
      if writeOk then
        (.json (.arr (xs.set i (setStatusOn (xs.getD i Json.null) st))), true)
      else (fs, true)
  | _ => (fs, false)

/-- The elements of the persisted ledger array (empty when the store does
not hold a parsed array). -/
def ledgerElems : FileState → List Json
  | .json (.arr xs) => xs
  | _ => []

/-- Boolean form of "this ledger element matches `txId`" (a throwing
callback does not match). -/
def jsHasId (x : Json) (txId : String) : Bool :=
  match jsIdEq x txId with
  | .ok true => true
  | _ => false

/-- All persisted ledger elements whose `id` field equals `txId`. -/
def recordsWithId (fs : FileState) (txId : String) : List Json :=
  (ledgerElems fs).filter (fun x => jsHasId x txId)

/-- JavaScript truthiness of a string: only the empty string is falsy. -/
def jsTruthyString (s : String) : Bool := s != ""

/-- Digits of a decimal numeral to a natural number. -/
def digitsToNat (l : List Char) : Nat :=
  l.foldl (fun acc c => acc * 10 + (c.toNat - 48)) 0

/-- Split a character list on the dot character (always at least one
group, like JavaScript's `split`). -/
def splitOnDot : List Char → List (List Char)
  | [] => [[]]
  | c :: rest =>
    if c = '.' then [] :: splitOnDot rest
    else
      match splitOnDot rest with
      | g :: gs => (c :: g) :: gs
      | [] => [[c]]

/-- Model of viem's `parseEther` on dispatcher-validated decimal strings:
whole units scaled by 10^18, with the fractional digits scaled into the
remaining decimal places (fractional digits beyond 18 are dropped; the
program's validated inputs are ordinary decimal amounts). -/
def parseEtherStr (s : String) : Nat :=
  match splitOnDot s.data with
  | [i] => digitsToNat i * 10 ^ 18
  | [i, f] =>
    let fd := f.take 18
    digitsToNat i * 10 ^ 18 + digitsToNat fd * 10 ^ (18 - fd.length)
  | _ => 0

/-- Results of the external (viem) calls made by `sendMonad`, in call
order: `privateKeyToAccount` (the derived sender address),
`getGasPrice`, `getBalance`, `sendTransaction` (the transaction hash),
and `waitForTransactionReceipt` (its `status` string, `"success"` or
`"reverted"`). `Except.error e` is the call throwing with message `e`. -/
structure NetworkOracle where
  account : Except String String
  gasPrice : Except String Nat
  balance : Except String Nat
  sendResult : Except String String
  receiptStatus : Except String String

/-- Outcome of one `sendMonad` call: the returned hash or the wrapped
thrown error, the resulting ledger file state, and whether
`sendTransaction` was invoked. -/
structure SendOutcome where
  result : Except String String
  fs : FileState
  submitted : Bool

/-- `MonadWalletManager.GAS_LIMIT`. -/
def GAS_LIMIT : Nat := 21000

/-- `MonadWalletManager.sendMonad`: derive the account, query gas price
and balance, fail on insufficient funds, submit, append a `pending`
record (best effort), await the receipt, set the final status to
`'confirmed'` when `receipt.status` is truthy and `'failed'` otherwise
(best effort), and return the hash. Any error before the receipt is
wrapped as `Transaction failed: ...`. `now` is `Date.now()`;
`logWriteOk` / `updateWriteOk` are the outcomes of the two `writeFile`
calls. -/
def sendMonad (o : NetworkOracle) (fs : FileState) (recipient amount : String)
    (now : Nat) (logWriteOk updateWriteOk : Bool) : SendOutcome :=
  match o.account with
  | .error e => ⟨.error ("Transaction failed: " ++ e), fs, false⟩
  | .ok senderAddr =>
    match o.gasPrice with
    | .error e => ⟨.error ("Transaction failed: " ++ e), fs, false⟩
    | .ok gasPrice =>
      match o.balance with
      | .error e => ⟨.error ("Transaction failed: " ++ e), fs, false⟩
      | .ok balance =>
        let gasCost := gasPrice * GAS_LIMIT
        let totalRequired := parseEtherStr amount + gasCost
        if balance < totalRequired then
          ⟨.error "Transaction failed: Insufficient balance for transaction and gas fees",
           fs, false⟩
        else
          match o.sendResult with
          | .error e => ⟨.error ("Transaction failed: " ++ e), fs, true⟩
          | .ok hash =>
            let fs1 := (logTransaction fs
              ⟨hash, now, senderAddr, recipient, amount, .pending⟩ logWriteOk).1
            match o.receiptStatus with
            | .error e => ⟨.error ("Transaction failed: " ++ e), fs1, true⟩
            | .ok rs =>
              let fs2 := (updateTransactionStatus fs1 hash
                (if jsTruthyString rs then .confirmed else .failed)
                updateWriteOk).1
              ⟨.ok hash, fs2, true⟩

/-- ASCII hex digit, as matched by `[a-fA-F0-9]`. -/
def isHexDigitChar (c : Char) : Bool :=
  c.isDigit || ('a' ≤ c && c ≤ 'f') || ('A' ≤ c && c ≤ 'F')

/-- The dispatcher's private-key check `/^0x[a-fA-F0-9]{64}$/`. -/
def isPrivateKeyFormat (s : String) : Bool :=
  match s.data with
  | '0' :: 'x' :: body => body.length = 64 && body.all isHexDigitChar
  | _ => false

/-- The dispatcher's address check `/^0x[a-fA-F0-9]{40}$/`. -/
def isAddressFormat (s : String) : Bool :=
  match s.data with
  | '0' :: 'x' :: body => body.length = 40 && body.all isHexDigitChar
  | _ => false

/-- The dispatcher's amount check `/^\d*\.?\d+$/`: an all-digit string,
or digits (possibly none), one dot, then at least one digit. -/
def isAmountFormat (s : String) : Bool :=
  match splitOnDot s.data with
  | [d] => !d.isEmpty && d.all Char.isDigit
  | [a, b] => a.all Char.isDigit && !b.isEmpty && b.all Char.isDigit
  | _ => false

/-- Outcome of the dispatcher's `transfer` case: the value printed or the
error thrown, the resulting file state, and whether `sendMonad` (and so
any remote call) was reached. -/
structure DispatchOutcome where
  result : Except String String
  fs : FileState
  remoteCalled : Bool

/-- The `case 'transfer'` branch of `main`: the three regex validations in
order, each throwing before `sendMonad` is called; on success the hash is
returned. -/
def transferCase (privateKey toAddress amount : String) (o : NetworkOracle)
    (fs : FileState) (now : Nat) (logWriteOk updateWriteOk : Bool) :
    DispatchOutcome :=
  if ¬ isPrivateKeyFormat privateKey then
    ⟨.error "Invalid private key format", fs, false⟩
  else if ¬ isAddressFormat toAddress then
    ⟨.error "Invalid Monad address format", fs, false⟩
  else if ¬ isAmountFormat amount then
    ⟨.error "Invalid amount format", fs, false⟩
  else
    let s := sendMonad o fs toAddress amount now logWriteOk updateWriteOk
    ⟨s.result, s.fs, true⟩

/-- One public ledger operation as issued by the transfer workflow and the
history command: best-effort append, best-effort status update, or a
read. -/
inductive LedgerOp where
  | append (tx : MonadTransaction) (writeOk : Bool)
  | update (txId : String) (st : TxStatus) (writeOk : Bool)
  | read

/-- Apply one ledger operation to the persisted file state. -/
def applyOp (fs : FileState) : LedgerOp → FileState
  | .append tx w => (logTransaction fs tx w).1
  | .update txId st w => (updateTransactionStatus fs txId st w).1
  | .read => fs

/-- Apply a sequence of ledger operations. -/
def applyOps (fs : FileState) (ops : List LedgerOp) : FileState :=
  ops.foldl applyOp fs

/-- `y` is `x` surviving the ledger operations: either unchanged, or `x`
with its `status` field finalized (the only mutation the store performs). -/
def recPreserved (x y : Json) : Prop :=
  y = x ∨ ∃ st : TxStatus, y = setStatusOn x st

/-! ## Helper lemmas -/

/-- `findIndex` returns no index (or throws) when no element matches. -/
theorem jsFindIndexAux_no_match (txId : String) :
    ∀ (xs : List Json) (n : Nat), (∀ x ∈ xs, jsIdEq x txId ≠ Except.ok true) →
      jsFindIndexAux xs txId n = Except.error () ∨ jsFindIndexAux xs txId n = Except.ok none := by
  intro xs
  induction xs with
  | nil => intro n _; exact Or.inr rfl
  | cons x rest ih =>
    intro n h
    have hx := h x (List.mem_cons_self x rest)
    match hxe : jsIdEq x txId with
    | .error e => left; simp [jsFindIndexAux, hxe]
    | .ok true => exact absurd hxe hx
    | .ok false =>
      have := ih (n + 1) (fun y hy => h y (List.mem_cons_of_mem x hy))
      simpa [jsFindIndexAux, hxe] using this

/-- Decoding an encoded record recovers every field exactly. -/
theorem decodeTx_encodeTx (tx : MonadTransaction) : decodeTx (encodeTx tx) = some tx := by
  cases tx with
  | mk i t sd r a st => cases st <;> rfl

/-- An encoded record matches its own id. -/
theorem jsIdEq_encodeTx (tx : MonadTransaction) : jsIdEq (encodeTx tx) tx.id = Except.ok true := by
  simp [jsIdEq, encodeTx, jsLookup]

/-- `findIndex` over `xs ++ [y]` finds `y` when nothing in `xs` matches. -/
theorem jsFindIndexAux_append_found (txId : String) (y : Json)
    (hy : jsIdEq y txId = Except.ok true) :
    ∀ (xs : List Json), (∀ x ∈ xs, jsIdEq x txId = Except.ok false) →
      ∀ n, jsFindIndexAux (xs ++ [y]) txId n = Except.ok (some (n + xs.length)) := by
  intro xs
  induction xs with
  | nil => intro _ n; simp [jsFindIndexAux, hy]
  | cons x rest ih =>
    intro h n
    have hx := h x (List.mem_cons_self x rest)
    have := ih (fun z hz => h z (List.mem_cons_of_mem x hz)) (n + 1)
    rw [List.cons_append]
    show jsFindIndexAux (x :: (rest ++ [y])) txId n = Except.ok (some (n + (rest.length + 1)))
    rw [jsFindIndexAux, hx, this]
    have harith : n + 1 + rest.length = n + (rest.length + 1) := by omega
    rw [harith]

/-- Reading just past `xs` in `xs ++ [y]` yields `y`. -/
theorem getD_append_self (y d : Json) : ∀ xs : List Json, (xs ++ [y]).getD xs.length d = y := by
  intro xs
  induction xs with
  | nil => rfl
  | cons x rest ih => simp [List.getD, ih]

/-- Setting just past `xs` in `xs ++ [y]` replaces `y`. -/
theorem set_append_self (y v : Json) : ∀ xs : List Json, (xs ++ [y]).set xs.length v = xs ++ [v] := by
  intro xs
  induction xs with
  | nil => rfl
  | cons x rest ih => simp [List.set, ih]

/-- Mutating the status of an encoded record re-encodes the record with the
new status (key order preserved). -/
theorem setStatusOn_encodeTx (tx : MonadTransaction) (st : TxStatus) :
    setStatusOn (encodeTx tx) st =
      encodeTx ⟨tx.id, tx.timestamp, tx.sender, tx.recipient, tx.amount, st⟩ := by
  simp [setStatusOn, encodeTx, setKeyStatus]

/-- Status overwrite is idempotent on the field list. -/
theorem setKeyStatus_setKeyStatus (v w : Json) :
    ∀ l : List (String × Json), setKeyStatus (setKeyStatus l v) w = setKeyStatus l w := by
  intro l
  induction l with
  | nil => simp [setKeyStatus]
  | cons kv rest ih =>
    obtain ⟨k, x⟩ := kv
    by_cases hk : k = "status" <;> simp [setKeyStatus, hk, ih]

/-- Status overwrite is idempotent on a JSON value. -/
theorem setStatusOn_setStatusOn (x : Json) (s t : TxStatus) :
    setStatusOn (setStatusOn x s) t = setStatusOn x t := by
  cases x <;> simp [setStatusOn, setKeyStatus_setKeyStatus]

/-- Surviving the ledger operations is transitive. -/
theorem recPreserved_trans {x y z : Json} (h1 : recPreserved x y) (h2 : recPreserved y z) :
    recPreserved x z := by
  rcases h1 with rfl | ⟨s, rfl⟩
  · exact h2
  · rcases h2 with rfl | ⟨t, rfl⟩
    · exact Or.inr ⟨s, rfl⟩
    · exact Or.inr ⟨t, by rw [setStatusOn_setStatusOn]⟩

/-- Appending does not disturb existing positions. -/
theorem getD_append_left (d : Json) :
    ∀ (xs ys : List Json) (i : Nat), i < xs.length → (xs ++ ys).getD i d = xs.getD i d := by
  intro xs
  induction xs with
  | nil => intro ys i hi; exact absurd hi (Nat.not_lt_zero i)
  | cons x rest ih =>
    intro ys i hi
    cases i with
    | zero => rfl
    | succ j => exact ih ys j (Nat.lt_of_succ_lt_succ hi)

/-- Reading the position just written. -/
theorem getD_set_self (v d : Json) :
    ∀ (xs : List Json) (i : Nat), i < xs.length → (xs.set i v).getD i d = v := by
  intro xs
  induction xs with
  | nil => intro i hi; exact absurd hi (Nat.not_lt_zero i)
  | cons x rest ih =>
    intro i hi
    cases i with
    | zero => rfl
    | succ j => exact ih j (Nat.lt_of_succ_lt_succ hi)

/-- Reading a position other than the one written. -/
theorem getD_set_ne (v d : Json) :
    ∀ (xs : List Json) (i j : Nat), j ≠ i → (xs.set i v).getD j d = xs.getD j d := by
  intro xs
  induction xs with
  | nil => intro i j _; rfl
  | cons x rest ih =>
    intro i j hne
    cases i with
    | zero =>
      cases j with
      | zero => exact absurd rfl hne
      | succ j' => rfl
    | succ i' =>
      cases j with
      | zero => rfl
      | succ j' => exact ih i' j' (fun h => hne (by rw [h]))

/-- One ledger operation never drops an element: the array can only grow,
and every existing position is unchanged or status-finalized in place. -/
theorem applyOp_step (fs : FileState) (op : LedgerOp) :
    (ledgerElems fs).length ≤ (ledgerElems (applyOp fs op)).length ∧
    ∀ i, i < (ledgerElems fs).length →
      recPreserved ((ledgerElems fs).getD i Json.null)
        ((ledgerElems (applyOp fs op)).getD i Json.null) := by
  have triv : ∀ gs : FileState, ledgerElems fs = [] →
      (ledgerElems fs).length ≤ (ledgerElems gs).length ∧
      ∀ i, i < (ledgerElems fs).length →
        recPreserved ((ledgerElems fs).getD i Json.null) ((ledgerElems gs).getD i Json.null) := by
    intro gs he
    rw [he]
    exact ⟨Nat.zero_le _, fun i hi => absurd hi (Nat.not_lt_zero i)⟩
  match op with
  | .read => exact ⟨Nat.le_refl _, fun i _ => Or.inl rfl⟩
  | .append tx w =>
    match fs with
    | .unreadable => exact triv _ rfl
    | .corrupt raw => exact triv _ rfl
    | .json .null => exact triv _ rfl
    | .json (.bool b) => exact triv _ rfl
    | .json (.num n) => exact triv _ rfl
    | .json (.str s) => exact triv _ rfl
    | .json (.obj fds) => exact triv _ rfl
    | .json (.arr xs) =>
      cases w with
      | false =>
        have : applyOp (.json (.arr xs)) (.append tx false) = .json (.arr xs) := rfl
        rw [this]
        exact ⟨Nat.le_refl _, fun i _ => Or.inl rfl⟩
      | true =>
        have : applyOp (.json (.arr xs)) (.append tx true) =
            .json (.arr (xs ++ [encodeTx tx])) := rfl
        rw [this]
        constructor
        · simp [ledgerElems]
        · intro i hi
          have hlt : i < xs.length := hi
          rw [show ledgerElems (.json (.arr (xs ++ [encodeTx tx]))) = xs ++ [encodeTx tx] from rfl,
            getD_append_left Json.null xs [encodeTx tx] i hlt]
          exact Or.inl rfl
  | .update txId st w =>
    match fs with
    | .unreadable => exact triv _ rfl
    | .corrupt raw => exact triv _ rfl
    | .json .null => exact triv _ rfl
    | .json (.bool b) => exact triv _ rfl
    | .json (.num n) => exact triv _ rfl
    | .json (.str s) => exact triv _ rfl
    | .json (.obj fds) => exact triv _ rfl
    | .json (.arr xs) =>
      have happ : applyOp (.json (.arr xs)) (.update txId st w) =
          (updateTransactionStatus (.json (.arr xs)) txId st w).1 := rfl
      rw [happ]
      match hfind : jsFindIndexAux xs txId 0 with
      | .error e =>
        rw [show (updateTransactionStatus (.json (.arr xs)) txId st w).1 = .json (.arr xs) by
          cases e; simp [updateTransactionStatus, getTransactionHistory, hfind]]
        exact ⟨Nat.le_refl _, fun i _ => Or.inl rfl⟩
      | .ok none =>
        rw [show (updateTransactionStatus (.json (.arr xs)) txId st w).1 = .json (.arr xs) by
          simp [updateTransactionStatus, getTransactionHistory, hfind]]
        exact ⟨Nat.le_refl _, fun i _ => Or.inl rfl⟩
      | .ok (some k) =>
        cases w with
        | false =>
          rw [show (updateTransactionStatus (.json (.arr xs)) txId st false).1 = .json (.arr xs) by
            simp [updateTransactionStatus, getTransactionHistory, hfind]]
          exact ⟨Nat.le_refl _, fun i _ => Or.inl rfl⟩
        | true =>
          rw [show (updateTransactionStatus (.json (.arr xs)) txId st true).1 =
              .json (.arr (xs.set k (setStatusOn (xs.getD k Json.null) st))) by
            simp [updateTransactionStatus, getTransactionHistory, hfind]]
          constructor
          · simp [ledgerElems]
          · intro i hi
            have hlen : i < xs.length := hi
            rw [show ledgerElems (.json (.arr (xs.set k (setStatusOn (xs.getD k Json.null) st)))) =
              xs.set k (setStatusOn (xs.getD k Json.null) st) from rfl]
            by_cases hik : i = k
            · subst hik
              rw [getD_set_self _ _ xs i hlen]
              exact Or.inr ⟨st, rfl⟩
            · rw [getD_set_ne _ _ xs k i hik]
              exact Or.inl rfl

/-! ## Claim theorems -/

/-- C1 (code bug): the claim says a revert outcome is stored as `failed`.
The code computes `receipt.status ? 'confirmed' : 'failed'`, but viem's
`receipt.status` is the string `"success"` or `"reverted"`, and both are
truthy, so even for a reverted transaction the hash is returned and the
stored record ends with status `confirmed`, never `failed`. This theorem
evaluates the transfer at the failing input (receipt status
`"reverted"`). -/
theorem sendMonad_revert_stores_confirmed :
    (sendMonad ⟨.ok "0xSender", .ok 1, .ok (10 ^ 19), .ok "0xhash1", .ok "reverted"⟩
        FileState.unreadable "0xRecipient" "1" 1000 true true).result = Except.ok "0xhash1" ∧
    recordsWithId (sendMonad ⟨.ok "0xSender", .ok 1, .ok (10 ^ 19), .ok "0xhash1", .ok "reverted"⟩
        FileState.unreadable "0xRecipient" "1" 1000 true true).fs "0xhash1" =
      [encodeTx ⟨"0xhash1", 1000, "0xSender", "0xRecipient", "1", TxStatus.confirmed⟩] :=
  ⟨rfl, rfl⟩

/-- C2: with the gas-price and balance queries answered, the transfer
throws the insufficient-funds error and performs no network submission
exactly when `balance < parseEther(amount) + gasPrice * 21000`; at
equality (and above) it proceeds to submission. -/
theorem sendMonad_insufficient_funds_iff (addr : String) (g b : Nat)
    (sr rcs : Except String String) (fs : FileState) (recipient amount : String)
    (now : Nat) (w1 w2 : Bool) (hamt : isAmountFormat amount = true) :
    ((sendMonad ⟨.ok addr, .ok g, .ok b, sr, rcs⟩ fs recipient amount now w1 w2).submitted = false ∧
     (sendMonad ⟨.ok addr, .ok g, .ok b, sr, rcs⟩ fs recipient amount now w1 w2).result =
       Except.error "Transaction failed: Insufficient balance for transaction and gas fees")
    ↔ b < parseEtherStr amount + g * 21000 := by
  constructor
  · rintro ⟨hsub, -⟩
    by_contra hnot
    have hsubT : (sendMonad ⟨.ok addr, .ok g, .ok b, sr, rcs⟩
        fs recipient amount now w1 w2).submitted = true := by
      simp only [sendMonad, GAS_LIMIT]
      rw [if_neg hnot]
      cases sr with
      | error e => rfl
      | ok hsh =>
        cases rcs with
        | error e => rfl
        | ok r => rfl
    rw [hsubT] at hsub
    exact absurd hsub (by decide)
  · intro hlt
    constructor
    · simp only [sendMonad, GAS_LIMIT]
      rw [if_pos hlt]
    · simp only [sendMonad, GAS_LIMIT]
      rw [if_pos hlt]

/-- Witness for C2 at a concrete input (balance 5 is insufficient). -/
theorem sendMonad_insufficient_funds_iff_witness :
    isAmountFormat "1.5" = true ∧
    (((sendMonad ⟨.ok "0xS", .ok 2, .ok 5, .ok "0xh", .ok "success"⟩
          FileState.unreadable "0xR" "1.5" 7 true true).submitted = false ∧
      (sendMonad ⟨.ok "0xS", .ok 2, .ok 5, .ok "0xh", .ok "success"⟩
          FileState.unreadable "0xR" "1.5" 7 true true).result =
        Except.error "Transaction failed: Insufficient balance for transaction and gas fees")
      ↔ 5 < parseEtherStr "1.5" + 2 * 21000) :=
  ⟨by decide,
   sendMonad_insufficient_funds_iff "0xS" 2 5 (.ok "0xh") (.ok "success")
     FileState.unreadable "0xR" "1.5" 7 true true (by decide)⟩

/-- C3: a transfer whose remote calls succeed, whose persistence writes
succeed, and whose returned id is fresh for the prior ledger returns the
hash, and the final ledger holds exactly one record with that id, whose
status is `confirmed` or `failed` (so never `pending`). -/
theorem sendMonad_exactly_one_terminal_record (addr hash rs : String) (g b : Nat)
    (fs : FileState) (xs : List Json) (recipient amount : String) (now : Nat)
    (hfs : getTransactionHistory fs = Json.arr xs)
    (hfresh : ∀ x ∈ xs, jsIdEq x hash = Except.ok false)
    (hb : parseEtherStr amount + g * 21000 ≤ b) :
    (sendMonad ⟨.ok addr, .ok g, .ok b, .ok hash, .ok rs⟩ fs recipient amount now true true).result
      = Except.ok hash ∧
    ∃ st : TxStatus, (st = TxStatus.confirmed ∨ st = TxStatus.failed) ∧
      recordsWithId
          (sendMonad ⟨.ok addr, .ok g, .ok b, .ok hash, .ok rs⟩ fs recipient amount now true true).fs
          hash =
        [encodeTx ⟨hash, now, addr, recipient, amount, st⟩] := by
  set st : TxStatus := if jsTruthyString rs then .confirmed else .failed with hst
  have hstd : st = TxStatus.confirmed ∨ st = TxStatus.failed := by
    rw [hst]
    by_cases h : jsTruthyString rs <;> simp [h]
  set rec : MonadTransaction := ⟨hash, now, addr, recipient, amount, .pending⟩ with hrec
  have hlog : (logTransaction fs rec true).1 = .json (.arr (xs ++ [encodeTx rec])) := by
    simp only [logTransaction]
    rw [hfs]
    simp
  have hidy : jsIdEq (encodeTx rec) hash = Except.ok true := jsIdEq_encodeTx rec
  have hfind : jsFindIndexAux (xs ++ [encodeTx rec]) hash 0 = Except.ok (some xs.length) := by
    simpa using jsFindIndexAux_append_found hash (encodeTx rec) hidy xs hfresh 0
  have hupd : (updateTransactionStatus (.json (.arr (xs ++ [encodeTx rec]))) hash st true).1 =
      .json (.arr (xs ++ [encodeTx ⟨hash, now, addr, recipient, amount, st⟩])) := by
    simp only [updateTransactionStatus, getTransactionHistory, hfind]
    rw [getD_append_self, set_append_self, setStatusOn_encodeTx]
    simp
  have hmain : sendMonad ⟨.ok addr, .ok g, .ok b, .ok hash, .ok rs⟩ fs recipient amount now true true =
      ⟨.ok hash, .json (.arr (xs ++ [encodeTx ⟨hash, now, addr, recipient, amount, st⟩])), true⟩ := by
    simp only [sendMonad, GAS_LIMIT]
    rw [if_neg (Nat.not_lt.mpr hb)]
    rw [← hrec, hlog, ← hst, hupd]
  refine ⟨by rw [hmain], st, hstd, ?_⟩
  rw [hmain]
  simp only [recordsWithId, ledgerElems, List.filter_append]
  have h1 : xs.filter (fun x => jsHasId x hash) = [] := by
    rw [List.filter_eq_nil_iff]
    intro a ha
    simp [jsHasId, hfresh a ha]
  have h2 : [encodeTx ⟨hash, now, addr, recipient, amount, st⟩].filter (fun x => jsHasId x hash) =
      [encodeTx ⟨hash, now, addr, recipient, amount, st⟩] := by
    have : jsHasId (encodeTx ⟨hash, now, addr, recipient, amount, st⟩) hash = true := by
      simp [jsHasId, jsIdEq_encodeTx ⟨hash, now, addr, recipient, amount, st⟩]
    simp [List.filter, this]
  rw [h1, h2, List.nil_append]

/-- Witness for C3 at a concrete input (empty prior ledger). -/
theorem sendMonad_exactly_one_terminal_record_witness :
    (sendMonad ⟨.ok "0xS", .ok 1, .ok (10 ^ 19), .ok "0xh1", .ok "success"⟩
        FileState.unreadable "0xR" "1" 42 true true).result = Except.ok "0xh1" ∧
    ∃ st : TxStatus, (st = TxStatus.confirmed ∨ st = TxStatus.failed) ∧
      recordsWithId (sendMonad ⟨.ok "0xS", .ok 1, .ok (10 ^ 19), .ok "0xh1", .ok "success"⟩
          FileState.unreadable "0xR" "1" 42 true true).fs "0xh1" =
        [encodeTx ⟨"0xh1", 42, "0xS", "0xR", "1", st⟩] :=
  sendMonad_exactly_one_terminal_record "0xS" "0xh1" "success" 1 (10 ^ 19)
    FileState.unreadable [] "0xR" "1" 42 rfl
    (fun x hx => absurd hx (List.not_mem_nil x)) (by decide)

/-- C4: once the submission has produced a hash, `sendMonad` returns that
hash whatever the prior ledger state and whether or not either
`writeFile` (the pending append or the status update) succeeds: local
persistence failures are swallowed, never raised to the caller. -/
theorem sendMonad_returns_hash_despite_write_failures (addr hash rs : String) (g b : Nat)
    (fs : FileState) (recipient amount : String) (now : Nat) (w1 w2 : Bool)
    (hb : parseEtherStr amount + g * 21000 ≤ b) :
    (sendMonad ⟨.ok addr, .ok g, .ok b, .ok hash, .ok rs⟩ fs recipient amount now w1 w2).result
      = Except.ok hash := by
  simp only [sendMonad, GAS_LIMIT]
  rw [if_neg (Nat.not_lt.mpr hb)]

/-- Witness for C4 at a concrete input with both writes failing. -/
theorem sendMonad_returns_hash_despite_write_failures_witness :
    parseEtherStr "1" + 1 * 21000 ≤ 10 ^ 19 ∧
    (sendMonad ⟨.ok "0xS", .ok 1, .ok (10 ^ 19), .ok "0xh", .ok "success"⟩
        FileState.unreadable "0xR" "1" 5 false false).result = Except.ok "0xh" :=
  ⟨by decide,
   sendMonad_returns_hash_despite_write_failures "0xS" "0xh" "success" 1 (10 ^ 19)
     FileState.unreadable "0xR" "1" 5 false false (by decide)⟩

/-- C5: `updateTransactionStatus` on an id that no ledger element matches
leaves the persisted state unchanged and never invokes `writeFile` (the
returned flag is `false`): a silent no-op. -/
theorem updateStatus_missing_id_is_noop (fs : FileState) (txId : String) (st : TxStatus)
    (w : Bool) (h : ∀ x ∈ ledgerElems fs, jsIdEq x txId ≠ Except.ok true) :
    updateTransactionStatus fs txId st w = (fs, false) := by
  match fs with
  | .unreadable => rfl
  | .corrupt raw => rfl
  | .json (.arr xs) =>
    have h' : ∀ x ∈ xs, jsIdEq x txId ≠ Except.ok true := h
    rcases jsFindIndexAux_no_match txId xs 0 h' with hf | hf <;>
      simp [updateTransactionStatus, getTransactionHistory, hf]
  | .json .null => rfl
  | .json (.bool b) => rfl
  | .json (.num n) => rfl
  | .json (.str s) => rfl
  | .json (.obj fds) => rfl

/-- Witness for C5 on a one-record ledger and a different id. -/
theorem updateStatus_missing_id_is_noop_witness :
    updateTransactionStatus
        (FileState.json (Json.arr [encodeTx ⟨"0xa", 5, "s", "r", "1", .pending⟩]))
        "0xb" TxStatus.confirmed true =
      (FileState.json (Json.arr [encodeTx ⟨"0xa", 5, "s", "r", "1", .pending⟩]), false) :=
  updateStatus_missing_id_is_noop _ "0xb" TxStatus.confirmed true
    (by
      intro x hx
      simp only [ledgerElems, List.mem_singleton] at hx
      subst hx
      simp [jsIdEq, encodeTx, jsLookup])

/-- C6: on a store whose history reads as an array, `append` followed by
`readAll` yields the previous sequence with the new record at the end,
and decoding the persisted representation recovers the record's exact
field values. -/
theorem append_readAll_roundtrip (fs : FileState) (xs : List Json) (tx : MonadTransaction)
    (hfs : getTransactionHistory fs = Json.arr xs) :
    getTransactionHistory (logTransaction fs tx true).1 = Json.arr (xs ++ [encodeTx tx]) ∧
    decodeTx (encodeTx tx) = some tx := by
  refine ⟨?_, decodeTx_encodeTx tx⟩
  simp only [logTransaction]
  rw [hfs]
  simp [getTransactionHistory]

/-- Witness for C6 on a concrete one-element store. -/
theorem append_readAll_roundtrip_witness :
    getTransactionHistory
        (logTransaction (FileState.json (Json.arr [Json.num 3]))
          ⟨"0xh", 9, "s", "r", "2", .pending⟩ true).1 =
      Json.arr ([Json.num 3] ++ [encodeTx ⟨"0xh", 9, "s", "r", "2", .pending⟩]) ∧
    decodeTx (encodeTx ⟨"0xh", 9, "s", "r", "2", .pending⟩) =
      some ⟨"0xh", 9, "s", "r", "2", .pending⟩ :=
  append_readAll_roundtrip (FileState.json (Json.arr [Json.num 3])) [Json.num 3]
    ⟨"0xh", 9, "s", "r", "2", .pending⟩ rfl

/-- C7: `readAll` never raises: an absent or unreadable file and any
unparseable content (including the empty file) all yield the empty
array, by the `catch` in `getTransactionHistory`. -/
theorem readAll_unreadable_returns_empty :
    getTransactionHistory FileState.unreadable = Json.arr [] ∧
    ∀ raw : String, getTransactionHistory (FileState.corrupt raw) = Json.arr [] :=
  ⟨rfl, fun _ => rfl⟩

/-- C8: the dispatcher's `transfer` case rejects a malformed private key,
recipient address, or amount with the corresponding validation error
before `sendMonad` (and so any remote call) is reached, leaving the
ledger untouched. -/
theorem transferCase_rejects_malformed_before_remote (k toAddr amt : String)
    (o : NetworkOracle) (fs : FileState) (now : Nat) (w1 w2 : Bool)
    (h : isPrivateKeyFormat k = false ∨ isAddressFormat toAddr = false ∨
         isAmountFormat amt = false) :
    (transferCase k toAddr amt o fs now w1 w2).remoteCalled = false ∧
    (transferCase k toAddr amt o fs now w1 w2).fs = fs ∧
    ((transferCase k toAddr amt o fs now w1 w2).result = Except.error "Invalid private key format" ∨
     (transferCase k toAddr amt o fs now w1 w2).result = Except.error "Invalid Monad address format" ∨
     (transferCase k toAddr amt o fs now w1 w2).result = Except.error "Invalid amount format") := by
  by_cases hk : isPrivateKeyFormat k
  · by_cases ha : isAddressFormat toAddr
    · by_cases hm : isAmountFormat amt
      · rcases h with h | h | h
        · rw [hk] at h; cases h
        · rw [ha] at h; cases h
        · rw [hm] at h; cases h
      · simp [transferCase, hk, ha, hm]
    · simp [transferCase, hk, ha]
  · simp [transferCase, hk]

/-- Witness for C8: the non-hex key `"0xZZ"` is rejected. -/
theorem transferCase_rejects_malformed_before_remote_witness :
    isPrivateKeyFormat "0xZZ" = false ∧
    ((transferCase "0xZZ" "0xR" "1" ⟨.ok "a", .ok 1, .ok 1, .ok "h", .ok "success"⟩
        FileState.unreadable 3 true true).remoteCalled = false ∧
     (transferCase "0xZZ" "0xR" "1" ⟨.ok "a", .ok 1, .ok 1, .ok "h", .ok "success"⟩
        FileState.unreadable 3 true true).fs = FileState.unreadable ∧
     ((transferCase "0xZZ" "0xR" "1" ⟨.ok "a", .ok 1, .ok 1, .ok "h", .ok "success"⟩
         FileState.unreadable 3 true true).result = Except.error "Invalid private key format" ∨
      (transferCase "0xZZ" "0xR" "1" ⟨.ok "a", .ok 1, .ok 1, .ok "h", .ok "success"⟩
         FileState.unreadable 3 true true).result = Except.error "Invalid Monad address format" ∨
      (transferCase "0xZZ" "0xR" "1" ⟨.ok "a", .ok 1, .ok 1, .ok "h", .ok "success"⟩
         FileState.unreadable 3 true true).result = Except.error "Invalid amount format")) :=
  ⟨by decide,
   transferCase_rejects_malformed_before_remote "0xZZ" "0xR" "1"
     ⟨.ok "a", .ok 1, .ok 1, .ok "h", .ok "success"⟩ FileState.unreadable 3 true true
     (Or.inl (by decide))⟩

/-- C9: across any sequence of public ledger operations, records are
never deleted: the persisted array only grows, and the element at each
previously occupied position is still there, either unchanged or with
its status finalized in place (the one mutation the system performs). -/
theorem ledger_records_never_deleted (fs : FileState) (ops : List LedgerOp) :
    (ledgerElems fs).length ≤ (ledgerElems (applyOps fs ops)).length ∧
    ∀ i, i < (ledgerElems fs).length →
      recPreserved ((ledgerElems fs).getD i Json.null)
        ((ledgerElems (applyOps fs ops)).getD i Json.null) := by
  induction ops generalizing fs with
  | nil => exact ⟨Nat.le_refl _, fun i _ => Or.inl rfl⟩
  | cons op rest ih =>
    have h1 := applyOp_step fs op
    have h2 := ih (applyOp fs op)
    exact ⟨Nat.le_trans h1.1 h2.1, fun i hi =>
      recPreserved_trans (h1.2 i hi) (h2.2 i (Nat.lt_of_lt_of_le hi h1.1))⟩

/-- Witness for C9: one record surviving an update, a read, and an append. -/
theorem ledger_records_never_deleted_witness :
    0 < (ledgerElems (FileState.json
        (Json.arr [encodeTx ⟨"0xa", 1, "s", "r", "1", .pending⟩]))).length ∧
    recPreserved
      ((ledgerElems (FileState.json
          (Json.arr [encodeTx ⟨"0xa", 1, "s", "r", "1", .pending⟩]))).getD 0 Json.null)
      ((ledgerElems (applyOps
          (FileState.json (Json.arr [encodeTx ⟨"0xa", 1, "s", "r", "1", .pending⟩]))
          [LedgerOp.update "0xa" .confirmed true, LedgerOp.read,
           LedgerOp.append ⟨"0xb", 2, "s", "r", "2", .pending⟩ true])).getD 0 Json.null) :=
  ⟨Nat.zero_lt_one,
   (ledger_records_never_deleted
     (FileState.json (Json.arr [encodeTx ⟨"0xa", 1, "s", "r", "1", .pending⟩]))
     [LedgerOp.update "0xa" .confirmed true, LedgerOp.read,
      LedgerOp.append ⟨"0xb", 2, "s", "r", "2", .pending⟩ true]).2 0 Nat.zero_lt_one⟩

/-- C10: `readAll` performs no shape validation: any content that parses
as JSON — array or not — is returned exactly as parsed; only a read or
parse failure takes the empty-array fallback. -/
theorem readAll_returns_parsed_value_as_is :
    (∀ v : Json, getTransactionHistory (FileState.json v) = v) ∧
    getTransactionHistory FileState.unreadable = Json.arr [] ∧
    ∀ raw : String, getTransactionHistory (FileState.corrupt raw) = Json.arr [] :=
  ⟨fun _ => rfl, rfl, fun _ => rfl⟩
